import Mathlib

/-!
Verification of the macOS pthread shim (`src/macosx_pthread.h`): a reusable
cyclic barrier (`pthread_barrier_init` / `pthread_barrier_wait` /
`pthread_barrier_destroy`) and a polled timed mutex acquisition
(`macos_pthread_mutex_timedlock`).

The C functions are shallowly embedded as Lean functions; the machine `int`
fields are modelled as `Int` (the conversion of the `unsigned int` argument of
`pthread_barrier_init` into the `int tripCount` field is made explicit), and
the external primitives (mutex, condition variable, `nanosleep`,
`pthread_mutex_trylock`) are modelled by their POSIX contract for a plain
(non-robust) mutex in an uninterrupted execution: `trylock` returns 0 when the
lock is free and `EBUSY` when it is held, `nanosleep` sleeps the whole
requested interval and leaves no remainder.  Multi-threaded behaviour of the
barrier is modelled as a small-step transition system whose atomic steps are
the mutex-protected critical sections of `pthread_barrier_wait`.
-/

namespace MacosPthread

/-! ### errno constants (Darwin values) -/

def EINVAL : Int := 22
def EBUSY : Int := 16
def ETIMEDOUT : Int := 60
def EAGAIN : Int := 35

/-! ### Timed mutex acquisition

`macos_pthread_mutex_timedlock` from `src/macosx_pthread.h` lines 114-139:

    remaining = *abs_timeout;
    while ((rv = pthread_mutex_trylock(mutex)) == EBUSY) {
        ts.tv_sec = 0;
        ts.tv_nsec = (remaining.tv_sec > 0 ? 10000000 :
                     (remaining.tv_nsec < 10000000 ? remaining.tv_nsec : 10000000));
        nanosleep(&ts, &slept);
        ts.tv_nsec -= slept.tv_nsec;
        if (ts.tv_nsec <= remaining.tv_nsec) {
            remaining.tv_nsec -= ts.tv_nsec;
        }
        else {
            remaining.tv_sec--;
            remaining.tv_nsec = (1000000 - (ts.tv_nsec - remaining.tv_nsec));
        }
        if (remaining.tv_sec < 0 || (!remaining.tv_sec && remaining.tv_nsec <= 0)) {
            return ETIMEDOUT;
        }
    }
    return rv;
-/

structure Timespec where
  tv_sec : Int
  tv_nsec : Int
deriving DecidableEq, Repr

/-- Total remaining time in nanoseconds represented by a timespec. -/
def Timespec.totalNs (t : Timespec) : Int := t.tv_sec * 1000000000 + t.tv_nsec

/-- The sleep request computed at the top of each loop iteration
(`ts.tv_sec = 0; ts.tv_nsec = ...`, lines 121-123 of the source). -/
def sleepReq (remaining : Timespec) : Int :=
  if remaining.tv_sec > 0 then 10000000
  else if remaining.tv_nsec < 10000000 then remaining.tv_nsec
  else 10000000

/-- The update of `remaining` after actually sleeping `sleptNs` nanoseconds
(lines 126-132 of the source; `ts.tv_nsec` there holds the slept amount). -/
def updateRemaining (remaining : Timespec) (sleptNs : Int) : Timespec :=
  if sleptNs ≤ remaining.tv_nsec then
    ⟨remaining.tv_sec, remaining.tv_nsec - sleptNs⟩
  else
    ⟨remaining.tv_sec - 1, 1000000 - (sleptNs - remaining.tv_nsec)⟩

/-- The timeout test at the bottom of each loop iteration (line 133). -/
def deadlineExpired (r : Timespec) : Bool :=
  r.tv_sec < 0 || (r.tv_sec == 0 && r.tv_nsec ≤ 0)

/-- Outcome of a `macos_pthread_mutex_timedlock` call: the return value, how
many `pthread_mutex_trylock` attempts were made, and the total time actually
spent sleeping (in nanoseconds). -/
structure LockOutcome where
  ret : Int
  attempts : Nat
  sleptTotal : Int
deriving DecidableEq, Repr

/-- One loop of `macos_pthread_mutex_timedlock`.  `oracle k` tells whether the
`k`-th (0-based) `pthread_mutex_trylock` finds the mutex free (returns 0) or
held (returns `EBUSY`).  `fuel` bounds the number of iterations modelled;
`none` means the loop was still running when the fuel ran out. -/
def timedlockLoop (oracle : Nat → Bool) : Nat → Timespec → Int → Nat → Option LockOutcome
  | _, _, _, 0 => none
  | k, remaining, sleptAcc, fuel + 1 =>
    if oracle k then some ⟨0, k + 1, sleptAcc⟩
    else
      let ns := sleepReq remaining
      let r' := updateRemaining remaining ns
      if deadlineExpired r' then some ⟨ETIMEDOUT, k + 1, sleptAcc + ns⟩
      else timedlockLoop oracle (k + 1) r' (sleptAcc + ns) fuel

/-- `macos_pthread_mutex_timedlock` (source lines 114-139), as a function of
the trylock oracle and the `abs_timeout` argument (which the code copies into
`remaining` and treats as a remaining duration). -/
def macos_pthread_mutex_timedlock (oracle : Nat → Bool) (abs_timeout : Timespec)
    (fuel : Nat) : Option LockOutcome :=
  timedlockLoop oracle 0 abs_timeout 0 fuel

/-! ### Barrier: data type and single-call semantics

`pthread_barrier_t` (source lines 25-31) holds a mutex, a condition variable,
`int count` (number of threads currently waiting) and `int tripCount` (the
required number of participants).
-/

structure pthread_barrier_t where
  count : Int
  tripCount : Int
deriving DecidableEq, Repr

/-- C conversion of an `unsigned int` value (a natural number below `2^32`)
to `int`, as performed by the assignment `barrier->tripCount = count;`. -/
def toInt32 (n : Nat) : Int :=
  if n < 2 ^ 31 then (n : Int) else (n : Int) - 2 ^ 32

/-- Result of `pthread_barrier_init`: the return value, the `errno` set by
the call (if any), the initialized barrier (if successful), and counters of
the calls made to the underlying resource primitives. -/
structure InitResult where
  ret : Int
  errnoSet : Option Int
  barrier : Option pthread_barrier_t
  mutexInitCalls : Nat
  condInitCalls : Nat
  mutexDestroyCalls : Nat
deriving DecidableEq, Repr

/-- `pthread_barrier_init` (source lines 42-65).  `mutexInitRet` and
`condInitRet` are the values returned by the underlying calls to
`pthread_mutex_init` and `pthread_cond_init`; on Darwin these functions
return 0 on success and a positive error number (e.g. `EAGAIN`, `ENOMEM`)
on failure, never a negative value.  The source's error tests are the
comparisons `pthread_mutex_init(...) < 0` and `pthread_cond_init(...) < 0`,
embedded here exactly as written.  `count` is the `unsigned int` argument
(a value in `[0, 2^32)`). -/
def pthread_barrier_init (mutexInitRet condInitRet : Int) (count : Nat) : InitResult :=
  if count = 0 then ⟨-1, some EINVAL, none, 0, 0, 0⟩
  else if mutexInitRet < 0 then ⟨-1, none, none, 1, 0, 0⟩
  else if condInitRet < 0 then ⟨-1, none, none, 1, 1, 1⟩
  else ⟨0, none, some ⟨0, toInt32 count⟩, 1, 1, 0⟩

/-- `pthread_barrier_destroy` (source lines 73-78): destroys the condition
variable and the mutex, returns 0; the integer fields are untouched. -/
def pthread_barrier_destroy (b : pthread_barrier_t) : Int × pthread_barrier_t :=
  (0, b)

/-- The primitive operations performed by `pthread_barrier_wait`, in order. -/
inductive BarrierAction where
  | lock
  | condWait
  | broadcast
  | unlock
deriving DecidableEq, Repr

/-- Result of one `pthread_barrier_wait` call as seen by the calling thread:
its return value, the barrier state at the moment this thread released the
mutex inside its entry critical section, and the ordered list of primitive
mutex/condition operations the call performs on its path. -/
structure WaitResult where
  ret : Int
  barrier : pthread_barrier_t
  actions : List BarrierAction
deriving DecidableEq, Repr

/-- `pthread_barrier_wait` (source lines 86-103), single-call view: lock the
mutex, increment `count`; if the new `count >= tripCount`, reset `count` to 0,
broadcast and unlock, returning 1; otherwise wait on the condition variable
(which releases and later re-acquires the mutex), unlock, and return 0. -/
def pthread_barrier_wait (b : pthread_barrier_t) : WaitResult :=
  if b.count + 1 ≥ b.tripCount then
    ⟨1, { b with count := 0 }, [.lock, .broadcast, .unlock]⟩
  else
    ⟨0, { b with count := b.count + 1 }, [.lock, .condWait, .unlock]⟩

/-! ### Barrier: multi-threaded transition system

All mutations of barrier state in `pthread_barrier_wait` happen with the
barrier's mutex held, so the mutex-protected critical sections are the atomic
steps of the system.  A thread is in one of four phases:

* `idle`    — has not yet called `pthread_barrier_wait` (for this cycle);
* `waiting` — has incremented `count` and is blocked in `pthread_cond_wait`;
* `woken`   — has been released by `pthread_cond_broadcast` and still has to
  re-acquire and release the mutex before returning;
* `done r`  — has returned from `pthread_barrier_wait` with return value `r`.
-/

inductive Phase where
  | idle
  | waiting
  | woken
  | done (ret : Int)
deriving DecidableEq, Repr

/-- `pthread_cond_broadcast` as seen by one thread: a thread blocked in
`pthread_cond_wait` becomes runnable; every other thread is unaffected. -/
def Phase.wake : Phase → Phase
  | .waiting => .woken
  | p => p

/-- Global state of a barrier together with the phases of the threads using
it (`ι` indexes the threads). -/
structure SysState (ι : Type) where
  count : Int
  trip : Int
  phase : ι → Phase

/-- The entry critical section of `pthread_barrier_wait`, executed atomically
by thread `t`: lock, `++count`, then either reset-broadcast-unlock (returning
1) or block in `pthread_cond_wait` (which releases the mutex). -/
def arriveStep {ι : Type} [DecidableEq ι] (s : SysState ι) (t : ι) : SysState ι :=
  if s.count + 1 ≥ s.trip then
    ⟨0, s.trip, fun u => if u = t then .done 1 else (s.phase u).wake⟩
  else
    ⟨s.count + 1, s.trip, fun u => if u = t then .waiting else s.phase u⟩

/-- The exit critical section of a follower: after being woken it re-acquires
the mutex, unlocks it and returns 0. -/
def finishStep {ι : Type} [DecidableEq ι] (s : SysState ι) (t : ι) : SysState ι :=
  ⟨s.count, s.trip, fun u => if u = t then .done 0 else s.phase u⟩

/-- Small-step relation: some idle thread calls `pthread_barrier_wait`, or
some woken follower completes its return path. -/
inductive Step {ι : Type} [DecidableEq ι] : SysState ι → SysState ι → Prop where
  | arrive (s : SysState ι) (t : ι) (h : s.phase t = .idle) : Step s (arriveStep s t)
  | finish (s : SysState ι) (t : ι) (h : s.phase t = .woken) : Step s (finishStep s t)

/-- Zero or more steps. -/
def Reaches {ι : Type} [DecidableEq ι] : SysState ι → SysState ι → Prop :=
  Relation.ReflTransGen Step

/-- State just after `pthread_barrier_init` succeeded with required count `n`
and before any thread has called `pthread_barrier_wait`. -/
def initState (ι : Type) (n : Int) : SysState ι :=
  ⟨0, n, fun _ => .idle⟩

/-- The same barrier instance at the start of a further cycle: the barrier
fields as they are, all (fresh) participants idle. -/
def freshCycle {ι : Type} (s : SysState ι) : SysState ι :=
  ⟨s.count, s.trip, fun _ => .idle⟩

/-- A phase strictly past the arrival point: the thread has been released by
(or performed) a broadcast. -/
def Phase.progressed : Phase → Bool
  | .idle => false
  | .waiting => false
  | .woken => true
  | .done _ => true

section BarrierSystem

variable {ι : Type} [DecidableEq ι] [Fintype ι]

/-- The set of threads currently blocked in `pthread_cond_wait`. -/
def waitingSet (s : SysState ι) : Finset ι :=
  Finset.univ.filter fun t => s.phase t = .waiting

/-- The set of threads that returned the "last arriver" status 1. -/
def doneOneSet (s : SysState ι) : Finset ι :=
  Finset.univ.filter fun t => s.phase t = .done 1

/-- Inductive invariant of a barrier used by exactly the threads of `ι`, with
required count `Fintype.card ι`:
the `count` field equals the number of threads blocked on the condition;
once any thread has been released past the rendezvous, every thread has
already arrived; at most one thread ever holds the "last arriver" status 1;
and every return value is 0 or 1. -/
def BarInv (s : SysState ι) : Prop :=
  s.trip = (Fintype.card ι : Int) ∧
  s.count = ((waitingSet s).card : Int) ∧
  ((∃ u, (s.phase u).progressed = true) → ∀ u, s.phase u ≠ .idle) ∧
  (doneOneSet s).card ≤ 1 ∧
  ∀ t r, s.phase t = .done r → r = 0 ∨ r = 1

lemma arriveStep_trip (s : SysState ι) (t : ι) : (arriveStep s t).trip = s.trip := by
  unfold arriveStep
  split <;> rfl

lemma step_trip_eq {s s' : SysState ι} (h : Step s s') : s'.trip = s.trip := by
  cases h with
  | arrive t ht => exact arriveStep_trip s t
  | finish t ht => rfl

lemma reaches_trip_eq {s s' : SysState ι} (h : Reaches s s') : s'.trip = s.trip := by
  induction h with
  | refl => rfl
  | tail _ hstep ih => rw [step_trip_eq hstep, ih]

lemma count_bounds_step {s s' : SysState ι} (hI : 0 ≤ s.count ∧ s.count < s.trip)
    (h : Step s s') : 0 ≤ s'.count ∧ s'.count < s'.trip := by
  obtain ⟨h0, h1⟩ := hI
  cases h with
  | arrive t ht =>
      unfold arriveStep
      split
      next hge =>
        refine ⟨le_rfl, ?_⟩
        show (0 : Int) < s.trip
        omega
      next hlt =>
        refine ⟨?_, ?_⟩
        · show (0 : Int) ≤ s.count + 1
          omega
        · show s.count + 1 < s.trip
          omega
  | finish t ht => exact ⟨h0, h1⟩

lemma count_bounds_reaches {s s' : SysState ι} (hI : 0 ≤ s.count ∧ s.count < s.trip)
    (h : Reaches s s') : 0 ≤ s'.count ∧ s'.count < s'.trip := by
  induction h with
  | refl => exact hI
  | tail _ hstep ih => exact count_bounds_step ih hstep

lemma barInv_init (n : Int) (hn : n = (Fintype.card ι : Int)) :
    BarInv (initState ι n) := by
  refine ⟨hn, ?_, ?_, ?_, ?_⟩
  · simp [waitingSet, initState]
  · rintro ⟨u, hu⟩
    simp [initState, Phase.progressed] at hu
  · simp [doneOneSet, initState]
  · intro t r h
    simp [initState] at h

lemma Phase.wake_ne_waiting (p : Phase) : p.wake ≠ .waiting := by
  cases p <;> simp [Phase.wake]

lemma arriveStep_of_trip (s : SysState ι) (t : ι) (h : s.count + 1 ≥ s.trip) :
    arriveStep s t = ⟨0, s.trip, fun u => if u = t then .done 1 else (s.phase u).wake⟩ := by
  unfold arriveStep
  rw [if_pos h]

lemma arriveStep_of_wait (s : SysState ι) (t : ι) (h : ¬s.count + 1 ≥ s.trip) :
    arriveStep s t = ⟨s.count + 1, s.trip, fun u => if u = t then .waiting else s.phase u⟩ := by
  unfold arriveStep
  rw [if_neg h]

lemma phases_low_of_idle (s : SysState ι) (t : ι) (ht : s.phase t = .idle)
    (hNoIdle : (∃ u, (s.phase u).progressed = true) → ∀ u, s.phase u ≠ .idle) :
    ∀ u, s.phase u = .idle ∨ s.phase u = .waiting := by
  intro u
  cases hp : s.phase u with
  | idle => exact Or.inl rfl
  | waiting => exact Or.inr rfl
  | woken => exact absurd ht (hNoIdle ⟨u, by rw [hp]; rfl⟩ t)
  | done r => exact absurd ht (hNoIdle ⟨u, by rw [hp]; rfl⟩ t)

/-- On the broadcast path every thread other than the arriver was blocked in
`pthread_cond_wait`. -/
lemma waitingSet_eq_erase (s : SysState ι) (t : ι) (ht : s.phase t = .idle)
    (hCount : s.count = ((waitingSet s).card : Int))
    (hTrip : s.trip = (Fintype.card ι : Int))
    (hge : s.count + 1 ≥ s.trip) :
    waitingSet s = Finset.univ.erase t := by
  have hsub : waitingSet s ⊆ Finset.univ.erase t := by
    intro u hu
    rcases Finset.mem_filter.mp hu with ⟨-, hw⟩
    refine Finset.mem_erase.mpr ⟨?_, Finset.mem_univ u⟩
    rintro rfl
    rw [ht] at hw
    exact Phase.noConfusion hw
  have hcard_erase : (Finset.univ.erase t).card = Fintype.card ι - 1 := by
    rw [Finset.card_erase_of_mem (Finset.mem_univ t), Finset.card_univ]
  have hle : (waitingSet s).card ≤ Fintype.card ι - 1 := by
    have := Finset.card_le_card hsub
    omega
  have hcard_pos : 1 ≤ Fintype.card ι := Fintype.card_pos_iff.mpr ⟨t⟩
  have hcount_ge : ((waitingSet s).card : Int) + 1 ≥ (Fintype.card ι : Int) := by
    rw [← hCount, ← hTrip]
    exact hge
  exact Finset.eq_of_subset_of_card_le hsub (by omega)

lemma barInv_arrive (s : SysState ι) (t : ι) (ht : s.phase t = .idle)
    (hI : BarInv s) : BarInv (arriveStep s t) := by
  obtain ⟨hTrip, hCount, hNoIdle, hOne, hRet⟩ := hI
  have hIW := phases_low_of_idle s t ht hNoIdle
  have htW : t ∉ waitingSet s := by
    simp [waitingSet, ht]
  by_cases hge : s.count + 1 ≥ s.trip
  · -- t is the last arriver: reset, broadcast, return 1
    rw [arriveStep_of_trip s t hge]
    have hW := waitingSet_eq_erase s t ht hCount hTrip hge
    have hOthers : ∀ u, u ≠ t → s.phase u = .waiting := by
      intro u hu
      have hmem : u ∈ waitingSet s := by
        rw [hW]
        exact Finset.mem_erase.mpr ⟨hu, Finset.mem_univ u⟩
      exact (Finset.mem_filter.mp hmem).2
    refine ⟨hTrip, ?_, ?_, ?_, ?_⟩
    · have hWs' : (waitingSet (⟨0, s.trip,
          fun u => if u = t then .done 1 else (s.phase u).wake⟩ : SysState ι)) = ∅ := by
        ext u
        simp only [waitingSet, Finset.mem_filter, Finset.mem_univ, true_and,
          Finset.not_mem_empty, iff_false]
        by_cases hu : u = t
        · rw [if_pos hu]
          exact fun h => Phase.noConfusion h
        · rw [if_neg hu]
          exact Phase.wake_ne_waiting _
      rw [hWs']
      rfl
    · rintro - u
      show (if u = t then Phase.done 1 else (s.phase u).wake) ≠ .idle
      by_cases hu : u = t
      · rw [if_pos hu]
        exact fun h => Phase.noConfusion h
      · rw [if_neg hu, hOthers u hu]
        exact fun h => Phase.noConfusion h
    · have hD : (doneOneSet (⟨0, s.trip,
          fun u => if u = t then .done 1 else (s.phase u).wake⟩ : SysState ι)) = {t} := by
        ext u
        simp only [doneOneSet, Finset.mem_filter, Finset.mem_univ, true_and,
          Finset.mem_singleton]
        by_cases hu : u = t
        · rw [if_pos hu]
          simp [hu]
        · rw [if_neg hu, hOthers u hu]
          simp [hu, Phase.wake]
      rw [hD, Finset.card_singleton]
    · intro u r h
      have h' : (if u = t then Phase.done 1 else (s.phase u).wake) = Phase.done r := h
      by_cases hu : u = t
      · rw [if_pos hu] at h'
        injection h' with h2
        exact Or.inr h2.symm
      · rw [if_neg hu, hOthers u hu] at h'
        exact absurd h' (fun hh => Phase.noConfusion hh)
  · -- t joins the waiters
    rw [arriveStep_of_wait s t hge]
    refine ⟨hTrip, ?_, ?_, ?_, ?_⟩
    · have hWs' : (waitingSet (⟨s.count + 1, s.trip,
          fun u => if u = t then .waiting else s.phase u⟩ : SysState ι))
          = insert t (waitingSet s) := by
        ext u
        simp only [waitingSet, Finset.mem_filter, Finset.mem_univ, true_and,
          Finset.mem_insert]
        by_cases hu : u = t
        · rw [if_pos hu]
          simp [hu]
        · rw [if_neg hu]
          simp [hu, waitingSet]
      rw [hWs', Finset.card_insert_of_not_mem htW]
      show s.count + 1 = ((waitingSet s).card + 1 : Nat)
      omega
    · rintro ⟨u, hu⟩
      exfalso
      by_cases hut : u = t
      · rw [show ((⟨s.count + 1, s.trip,
            fun u => if u = t then Phase.waiting else s.phase u⟩ : SysState ι).phase u)
            = .waiting from by rw [hut]; exact if_pos rfl] at hu
        exact Bool.noConfusion hu
      · rw [show ((⟨s.count + 1, s.trip,
            fun u => if u = t then Phase.waiting else s.phase u⟩ : SysState ι).phase u)
            = s.phase u from if_neg hut] at hu
        exact absurd ht (hNoIdle ⟨u, hu⟩ t)
    · have hD : (doneOneSet (⟨s.count + 1, s.trip,
          fun u => if u = t then .waiting else s.phase u⟩ : SysState ι)) = ∅ := by
        ext u
        simp only [doneOneSet, Finset.mem_filter, Finset.mem_univ, true_and,
          Finset.not_mem_empty, iff_false]
        by_cases hu : u = t
        · rw [if_pos hu]
          exact fun h => Phase.noConfusion h
        · rw [if_neg hu]
          intro h
          rcases hIW u with hp | hp <;> rw [hp] at h <;> exact Phase.noConfusion h
      rw [hD]
      simp
    · intro u r h
      have h' : (if u = t then Phase.waiting else s.phase u) = Phase.done r := h
      by_cases hu : u = t
      · rw [if_pos hu] at h'
        exact absurd h' (fun hh => Phase.noConfusion hh)
      · rw [if_neg hu] at h'
        rcases hIW u with hp | hp <;> rw [hp] at h' <;>
          exact absurd h' (fun hh => Phase.noConfusion hh)

lemma barInv_finish (s : SysState ι) (t : ι) (ht : s.phase t = .woken)
    (hI : BarInv s) : BarInv (finishStep s t) := by
  obtain ⟨hTrip, hCount, hNoIdle, hOne, hRet⟩ := hI
  have hAll : ∀ u, s.phase u ≠ .idle := hNoIdle ⟨t, by rw [ht]; rfl⟩
  refine ⟨hTrip, ?_, ?_, ?_, ?_⟩
  · have hWs' : waitingSet (finishStep s t) = waitingSet s := by
      ext u
      simp only [waitingSet, Finset.mem_filter, Finset.mem_univ, true_and]
      show (if u = t then Phase.done 0 else s.phase u) = .waiting ↔ _
      by_cases hu : u = t
      · rw [if_pos hu, hu, ht]
        constructor <;> exact fun h => absurd h (fun hh => Phase.noConfusion hh)
      · rw [if_neg hu]
    rw [hWs']
    exact hCount
  · rintro - u
    show (if u = t then Phase.done 0 else s.phase u) ≠ .idle
    by_cases hu : u = t
    · rw [if_pos hu]
      exact fun h => Phase.noConfusion h
    · rw [if_neg hu]
      exact hAll u
  · have hD : doneOneSet (finishStep s t) = doneOneSet s := by
      ext u
      simp only [doneOneSet, Finset.mem_filter, Finset.mem_univ, true_and]
      show (if u = t then Phase.done 0 else s.phase u) = .done 1 ↔ _
      by_cases hu : u = t
      · rw [if_pos hu, hu, ht]
        constructor
        · intro h
          injection h with h2
          exact absurd h2 (by norm_num)
        · exact fun h => absurd h (fun hh => Phase.noConfusion hh)
      · rw [if_neg hu]
    rw [hD]
    exact hOne
  · intro u r h
    have h' : (if u = t then Phase.done 0 else s.phase u) = Phase.done r := h
    by_cases hu : u = t
    · rw [if_pos hu] at h'
      injection h' with h2
      exact Or.inl h2.symm
    · rw [if_neg hu] at h'
      exact hRet u r h'

lemma barInv_step {s s' : SysState ι} (hI : BarInv s) (h : Step s s') : BarInv s' := by
  cases h with
  | arrive t ht => exact barInv_arrive s t ht hI
  | finish t ht => exact barInv_finish s t ht hI

lemma barInv_reaches {s s' : SysState ι} (hI : BarInv s) (h : Reaches s s') : BarInv s' := by
  induction h with
  | refl => exact hI
  | tail _ hstep ih => exact barInv_step ih hstep

/-- Rendezvous: in any reachable state, once some thread has returned from
`pthread_barrier_wait`, every thread has already called it. -/
lemma rendezvous {s : SysState ι}
    (h : Reaches (initState ι (Fintype.card ι : Int)) s)
    (hdone : ∃ t r, s.phase t = .done r) : ∀ u, s.phase u ≠ .idle := by
  have hI : BarInv s := barInv_reaches (barInv_init _ rfl) h
  obtain ⟨t, r, hd⟩ := hdone
  exact hI.2.2.1 ⟨t, by rw [hd]; rfl⟩

/-- After a complete cycle (all threads returned), the barrier's counter is
back to 0 and its trip count is unchanged. -/
lemma cycle_reset {s : SysState ι}
    (h : Reaches (initState ι (Fintype.card ι : Int)) s)
    (hall : ∀ t, ∃ r, s.phase t = .done r) :
    s.count = 0 ∧ s.trip = (Fintype.card ι : Int) := by
  have hI : BarInv s := barInv_reaches (barInv_init _ rfl) h
  have hWs : waitingSet s = ∅ := by
    ext u
    simp only [waitingSet, Finset.mem_filter, Finset.mem_univ, true_and,
      Finset.not_mem_empty, iff_false]
    obtain ⟨r, hr⟩ := hall u
    rw [hr]
    exact fun h => Phase.noConfusion h
  refine ⟨?_, hI.1⟩
  rw [hI.2.1, hWs]
  rfl

end BarrierSystem

/-! ### Lemmas about the timed lock -/

lemma timedlockLoop_ret (oracle : Nat → Bool) (fuel : Nat) :
    ∀ (k : Nat) (rem : Timespec) (slept : Int) (out : LockOutcome),
      timedlockLoop oracle k rem slept fuel = some out →
      out.ret = 0 ∨ out.ret = ETIMEDOUT := by
  induction fuel with
  | zero =>
      intro k rem slept out h
      simp [timedlockLoop] at h
  | succ n ih =>
      intro k rem slept out h
      simp only [timedlockLoop] at h
      split at h
      · cases h
        exact Or.inl rfl
      · split at h
        · cases h
          exact Or.inr rfl
        · exact ih _ _ _ _ h

/-- Sleeping the requested interval from a remaining time that is already
nonpositive leaves the deadline test true. -/
lemma deadlineExpired_after_past (t : Timespec)
    (hpast : (t.tv_sec < 0 ∧ 0 ≤ t.tv_nsec) ∨ (t.tv_sec = 0 ∧ t.tv_nsec = 0)) :
    deadlineExpired (updateRemaining t (sleepReq t)) = true := by
  rcases hpast with ⟨h1, h2⟩ | ⟨h1, h2⟩
  · have hreq : sleepReq t ≤ t.tv_nsec := by
      unfold sleepReq
      rw [if_neg (by omega)]
      split
      · exact le_rfl
      · omega
    unfold updateRemaining
    rw [if_pos hreq]
    simp only [deadlineExpired, Bool.or_eq_true, decide_eq_true_eq]
    exact Or.inl h1
  · have hreq : sleepReq t = 0 := by
      unfold sleepReq
      rw [if_neg (by omega), if_pos (by omega), h2]
    rw [hreq]
    unfold updateRemaining
    rw [if_pos (by omega)]
    simp only [deadlineExpired, Bool.or_eq_true, Bool.and_eq_true, decide_eq_true_eq,
      beq_iff_eq]
    exact Or.inr ⟨h1, by omega⟩

/-- With a deadline already in the past the loop makes exactly one trylock
attempt: success if the mutex is free at that instant, `ETIMEDOUT` otherwise. -/
lemma timedlock_past (oracle : Nat → Bool) (t : Timespec) (n : Nat)
    (hpast : (t.tv_sec < 0 ∧ 0 ≤ t.tv_nsec) ∨ (t.tv_sec = 0 ∧ t.tv_nsec = 0)) :
    macos_pthread_mutex_timedlock oracle t (n + 1) =
      if oracle 0 then some ⟨0, 1, 0⟩ else some ⟨ETIMEDOUT, 1, sleepReq t⟩ := by
  unfold macos_pthread_mutex_timedlock
  by_cases ho : oracle 0
  · simp [timedlockLoop, ho]
  · simp only [Bool.not_eq_true] at ho
    simp [timedlockLoop, ho, deadlineExpired_after_past t hpast]

/-! ## Claims -/

/-- C1: for a barrier with required count `N ≥ 1`, no thread that calls
`pthread_barrier_wait` returns before every one of the `N` participants of
that cycle has called it; and after a full cycle completes, the same barrier
instance (without reinitialization) supports a further cycle of `N` fresh
calls with the same rendezvous property. -/
theorem C1_rendezvous_and_reuse (N : ℕ) (hN : 1 ≤ N)
    (s : SysState (Fin N)) (h : Reaches (initState (Fin N) (N : Int)) s) :
    ((∃ t r, s.phase t = .done r) → ∀ u, s.phase u ≠ .idle) ∧
    ((∀ t, ∃ r, s.phase t = .done r) →
      freshCycle s = initState (Fin N) (N : Int) ∧
      ∀ s', Reaches (freshCycle s) s' →
        (∃ t r, s'.phase t = .done r) → ∀ u, s'.phase u ≠ .idle) := by
  have hcast : ((Fintype.card (Fin N) : Nat) : Int) = ((N : Nat) : Int) := by
    rw [Fintype.card_fin]
  have h' : Reaches (initState (Fin N) ((Fintype.card (Fin N) : Nat) : Int)) s := by
    rw [hcast]
    exact h
  constructor
  · exact fun hdone => rendezvous h' hdone
  · intro hall
    have hreset := cycle_reset h' hall
    have hfc : freshCycle s = initState (Fin N) (N : Int) := by
      unfold freshCycle initState
      rw [hreset.1, hreset.2, hcast]
    refine ⟨hfc, ?_⟩
    intro s' hs' hdone'
    rw [hfc] at hs'
    have hs'' : Reaches (initState (Fin N) ((Fintype.card (Fin N) : Nat) : Int)) s' := by
      rw [hcast]
      exact hs'
    exact rendezvous hs'' hdone'

theorem C1_witness :
    ((∃ t r, (initState (Fin 1) ((1 : ℕ) : Int)).phase t = .done r) →
      ∀ u, (initState (Fin 1) ((1 : ℕ) : Int)).phase u ≠ .idle) ∧
    ((∀ t, ∃ r, (initState (Fin 1) ((1 : ℕ) : Int)).phase t = .done r) →
      freshCycle (initState (Fin 1) ((1 : ℕ) : Int)) = initState (Fin 1) ((1 : ℕ) : Int) ∧
      ∀ s', Reaches (freshCycle (initState (Fin 1) ((1 : ℕ) : Int))) s' →
        (∃ t r, s'.phase t = .done r) → ∀ u, s'.phase u ≠ .idle) :=
  C1_rendezvous_and_reuse 1 le_rfl _ Relation.ReflTransGen.refl

/-- C2: in `pthread_barrier_wait`, the call whose increment makes `count`
equal `tripCount` resets `count` to 0, broadcasts (leaving no thread blocked
on the condition), unlocks, and returns the distinguished value 1; at most
one thread per cycle obtains return value 1 and all other participants
return 0; and on a barrier with `tripCount = 1` every call returns 1
immediately. -/
theorem C2_last_arriver_semantics :
    (∀ b : pthread_barrier_t, b.count + 1 = b.tripCount →
      pthread_barrier_wait b = ⟨1, ⟨0, b.tripCount⟩, [.lock, .broadcast, .unlock]⟩) ∧
    (∀ b : pthread_barrier_t, b.tripCount = 1 → 0 ≤ b.count →
      (pthread_barrier_wait b).ret = 1) ∧
    (∀ (ι : Type) [DecidableEq ι] [Fintype ι] (s : SysState ι) (t : ι), s.count + 1 ≥ s.trip →
      (arriveStep s t).count = 0 ∧ (∀ u, (arriveStep s t).phase u ≠ .waiting) ∧
      (arriveStep s t).phase t = .done 1) ∧
    (∀ (N : ℕ) (s : SysState (Fin N)),
      Reaches (initState (Fin N) ((Fintype.card (Fin N) : Nat) : Int)) s →
      (doneOneSet s).card ≤ 1 ∧ ∀ u r, s.phase u = .done r → r = 0 ∨ r = 1) := by
  refine ⟨?_, ?_, ?_, ?_⟩
  · intro b hb
    unfold pthread_barrier_wait
    rw [if_pos (by omega)]
  · intro b hb hc
    unfold pthread_barrier_wait
    rw [if_pos (by omega)]
  · intro ι instD instF s t hge
    rw [arriveStep_of_trip s t hge]
    refine ⟨rfl, ?_, ?_⟩
    · intro u
      show (if u = t then Phase.done 1 else (s.phase u).wake) ≠ .waiting
      by_cases hu : u = t
      · rw [if_pos hu]
        exact fun h => Phase.noConfusion h
      · rw [if_neg hu]
        exact Phase.wake_ne_waiting _
    · show (if t = t then Phase.done 1 else (s.phase t).wake) = .done 1
      rw [if_pos rfl]
  · intro N s h
    have hI : BarInv s := barInv_reaches (barInv_init _ rfl) h
    exact ⟨hI.2.2.2.1, hI.2.2.2.2⟩

theorem C2_witness :
    pthread_barrier_wait ⟨2, 3⟩ = ⟨1, ⟨0, 3⟩, [.lock, .broadcast, .unlock]⟩ ∧
    (pthread_barrier_wait ⟨0, 1⟩).ret = 1 ∧
    (arriveStep (⟨0, 1, fun _ => .idle⟩ : SysState (Fin 1)) 0).count = 0 ∧
    (doneOneSet (initState (Fin 1) ((Fintype.card (Fin 1) : Nat) : Int))).card ≤ 1 := by
  refine ⟨C2_last_arriver_semantics.1 ⟨2, 3⟩ (by norm_num),
    C2_last_arriver_semantics.2.1 ⟨0, 1⟩ rfl le_rfl, ?_, ?_⟩
  · exact (C2_last_arriver_semantics.2.2.1 (Fin 1)
      ⟨0, 1, fun _ => .idle⟩ 0 (by decide)).1
  · exact (C2_last_arriver_semantics.2.2.2 1 _ Relation.ReflTransGen.refl).1

/-- C8: for a barrier created with required count `N ≥ 1`, the invariant
`0 ≤ count ≤ N` holds in every state observable outside the mutex-protected
critical sections, is preserved by every `pthread_barrier_wait` step, and
`pthread_barrier_destroy` leaves the fields unchanged. -/
theorem C8_count_invariant {ι : Type} [DecidableEq ι] [Fintype ι] (N : Int) (hN : 1 ≤ N)
    (s : SysState ι) (h : Reaches (initState ι N) s) :
    (0 ≤ s.count ∧ s.count ≤ N) ∧
    ∀ b : pthread_barrier_t, (pthread_barrier_destroy b).2 = b := by
  have hinit : 0 ≤ (initState ι N).count ∧ (initState ι N).count < (initState ι N).trip :=
    ⟨le_rfl, hN⟩
  have hb := count_bounds_reaches hinit h
  have htrip : s.trip = N := reaches_trip_eq h
  exact ⟨⟨hb.1, by omega⟩, fun b => rfl⟩

theorem C8_witness :
    ((0 ≤ (initState (Fin 2) 5).count ∧ (initState (Fin 2) 5).count ≤ 5) ∧
      ∀ b : pthread_barrier_t, (pthread_barrier_destroy b).2 = b) :=
  C8_count_invariant 5 (by norm_num) _ Relation.ReflTransGen.refl

/-- C10: the last arriver's path through `pthread_barrier_wait` performs no
blocking call other than taking the mutex — it is exactly lock, broadcast,
unlock, and in particular never waits on the condition variable — and on
every return path the mutex is released as the final action before the
function returns. -/
theorem C10_release_paths (b : pthread_barrier_t) :
    ((pthread_barrier_wait b).ret = 1 →
      (pthread_barrier_wait b).actions = [.lock, .broadcast, .unlock] ∧
      BarrierAction.condWait ∉ (pthread_barrier_wait b).actions) ∧
    (pthread_barrier_wait b).actions.getLast? = some .unlock := by
  unfold pthread_barrier_wait
  split
  · exact ⟨fun _ => ⟨rfl,
      show BarrierAction.condWait ∉
        [BarrierAction.lock, .broadcast, .unlock] from by decide⟩, rfl⟩
  · refine ⟨?_, rfl⟩
    intro hr
    exact absurd hr (by norm_num)

theorem C10_witness :
    (((pthread_barrier_wait ⟨2, 3⟩).ret = 1 →
      (pthread_barrier_wait ⟨2, 3⟩).actions = [.lock, .broadcast, .unlock] ∧
      BarrierAction.condWait ∉ (pthread_barrier_wait ⟨2, 3⟩).actions) ∧
    (pthread_barrier_wait ⟨2, 3⟩).actions.getLast? = some .unlock) :=
  C10_release_paths ⟨2, 3⟩

/-- C4 (amended): `pthread_barrier_init` with `count == 0` fails with return
value -1 and `errno = EINVAL`; for every `count` with `0 < count < 2^31`
(so that the value is representable in the `int tripCount` field) for which
the mutex and condition allocations succeed (both underlying init calls
return 0), it returns 0 with `count` field 0 and `tripCount` field equal to
the given count. -/
theorem C4_init_behaviour (m c : Int) (count : Nat)
    (h1 : 0 < count) (h2 : count < 2 ^ 31) :
    (pthread_barrier_init m c 0).ret = -1 ∧
    (pthread_barrier_init m c 0).errnoSet = some EINVAL ∧
    pthread_barrier_init 0 0 count = ⟨0, none, some ⟨0, (count : Int)⟩, 1, 1, 0⟩ := by
  refine ⟨?_, ?_, ?_⟩
  · unfold pthread_barrier_init
    rw [if_pos rfl]
  · unfold pthread_barrier_init
    rw [if_pos rfl]
  · unfold pthread_barrier_init
    rw [if_neg (by omega), if_neg (by norm_num), if_neg (by norm_num)]
    unfold toInt32
    rw [if_pos h2]

theorem C4_witness :
    ((pthread_barrier_init 35 0 0).ret = -1 ∧
    (pthread_barrier_init 35 0 0).errnoSet = some EINVAL ∧
    pthread_barrier_init 0 0 5 = ⟨0, none, some ⟨0, ((5 : Nat) : Int)⟩, 1, 1, 0⟩) := by
  have h := C4_init_behaviour 35 0 5 (by norm_num) (by norm_num)
  exact ⟨h.1, h.2.1, h.2.2⟩

/-- C4 as stated is false: `pthread_barrier_init` called with
`count = 2^31 > 0` (an `unsigned int` value) succeeds but stores
`-2^31` in the `int tripCount` field, not the given count. -/
theorem C4_counterexample :
    (pthread_barrier_init 0 0 (2 ^ 31)).ret = 0 ∧
    (pthread_barrier_init 0 0 (2 ^ 31)).barrier.map pthread_barrier_t.tripCount
      = some (-(2 ^ 31) : Int) ∧
    (-(2 ^ 31) : Int) ≠ ((2 ^ 31 : Nat) : Int) := by
  refine ⟨rfl, rfl, by norm_num⟩

/-- C9 is right about the intent but the code does not implement it: the
source tests `pthread_mutex_init(...) < 0` and `pthread_cond_init(...) < 0`,
yet on Darwin these functions return a positive error number on failure, so
both error branches are dead.  With `pthread_mutex_init` failing with
`EAGAIN` (= 35), or with `pthread_cond_init` failing with `EAGAIN`, the call
still returns 0, reports a barrier, performs no mutex destroy, and sets no
errno — the allocation failure is silently swallowed instead of being
surfaced as -1. -/
theorem C9_failure_swallowed :
    pthread_barrier_init EAGAIN 0 4 = ⟨0, none, some ⟨0, 4⟩, 1, 1, 0⟩ ∧
    pthread_barrier_init 0 EAGAIN 4 = ⟨0, none, some ⟨0, 4⟩, 1, 1, 0⟩ := by
  exact ⟨rfl, rfl⟩

/-- C5: `macos_pthread_mutex_timedlock` has only two outcomes — lock
acquired (0) or `ETIMEDOUT` — and never any other status of the native
primitive such as owner-died or deadlock-detected. -/
theorem C5_two_outcomes (oracle : Nat → Bool) (t : Timespec) (fuel : Nat)
    (out : LockOutcome) (h : macos_pthread_mutex_timedlock oracle t fuel = some out) :
    out.ret = 0 ∨ out.ret = ETIMEDOUT :=
  timedlockLoop_ret oracle fuel 0 t 0 out h

theorem C5_witness :
    ((⟨0, 1, 0⟩ : LockOutcome).ret = 0 ∨ (⟨0, 1, 0⟩ : LockOutcome).ret = ETIMEDOUT) :=
  C5_two_outcomes (fun _ => true) ⟨0, 0⟩ 1 ⟨0, 1, 0⟩ (by decide)

/-- C6: called with a deadline already in the past,
`macos_pthread_mutex_timedlock` still performs exactly one non-blocking
acquisition attempt before timing out; if the lock is free at that moment
the call succeeds instead of timing out. -/
theorem C6_past_deadline (oracle : Nat → Bool) (t : Timespec) (n : Nat)
    (hpast : (t.tv_sec < 0 ∧ 0 ≤ t.tv_nsec) ∨ (t.tv_sec = 0 ∧ t.tv_nsec = 0)) :
    (oracle 0 = true → macos_pthread_mutex_timedlock oracle t (n + 1) = some ⟨0, 1, 0⟩) ∧
    (oracle 0 = false → macos_pthread_mutex_timedlock oracle t (n + 1)
      = some ⟨ETIMEDOUT, 1, sleepReq t⟩) := by
  constructor <;> intro ho <;> rw [timedlock_past oracle t n hpast] <;> simp [ho]

theorem C6_witness :
    macos_pthread_mutex_timedlock (fun _ => false) ⟨0, 0⟩ 1 = some ⟨ETIMEDOUT, 1, sleepReq ⟨0, 0⟩⟩ ∧
    macos_pthread_mutex_timedlock (fun _ => true) ⟨0, 0⟩ 1 = some ⟨0, 1, 0⟩ :=
  ⟨(C6_past_deadline (fun _ => false) ⟨0, 0⟩ 0 (Or.inr ⟨rfl, rfl⟩)).2 rfl,
   (C6_past_deadline (fun _ => true) ⟨0, 0⟩ 0 (Or.inr ⟨rfl, rfl⟩)).1 rfl⟩

/-- C7: the sleep interval requested in an iteration of the retry loop is
capped at 10 ms, never exceeds the remaining time, equals exactly 10 ms when
at least one full second remains, and otherwise equals the minimum of the
remaining nanoseconds and 10 ms. -/
theorem C7_sleep_quantum (rem : Timespec) (hsec : 0 ≤ rem.tv_sec) (hnsec : 0 ≤ rem.tv_nsec) :
    sleepReq rem ≤ 10000000 ∧
    (0 < rem.tv_sec → sleepReq rem = 10000000) ∧
    (rem.tv_sec = 0 → sleepReq rem = min rem.tv_nsec 10000000) ∧
    sleepReq rem ≤ rem.totalNs := by
  refine ⟨?_, ?_, ?_, ?_⟩
  · unfold sleepReq
    split
    · exact le_rfl
    · split <;> omega
  · intro h
    unfold sleepReq
    rw [if_pos h]
  · intro h
    unfold sleepReq
    rw [if_neg (by omega)]
    by_cases hn : rem.tv_nsec < 10000000
    · rw [if_pos hn]
      exact (min_eq_left (by omega)).symm
    · rw [if_neg hn]
      exact (min_eq_right (by omega)).symm
  · unfold sleepReq Timespec.totalNs
    split
    next h => nlinarith
    next h => split <;> omega

theorem C7_witness :
    (0 : Int) ≤ 0 ∧ (0 : Int) ≤ 5 ∧
    (sleepReq ⟨0, 5⟩ ≤ 10000000 ∧
    (0 < (⟨0, 5⟩ : Timespec).tv_sec → sleepReq ⟨0, 5⟩ = 10000000) ∧
    ((⟨0, 5⟩ : Timespec).tv_sec = 0 → sleepReq ⟨0, 5⟩ = min (⟨0, 5⟩ : Timespec).tv_nsec 10000000) ∧
    sleepReq ⟨0, 5⟩ ≤ (⟨0, 5⟩ : Timespec).totalNs) :=
  ⟨le_rfl, by norm_num, C7_sleep_quantum ⟨0, 5⟩ le_rfl (by norm_num)⟩

/-- C3: the code does not wait until the deadline.  With the lock held for
the whole window and a remaining time of 1 s, the loop returns `ETIMEDOUT`
after a single 10 ms sleep (the borrow in the remaining-time update uses
1000000 where 1000000000 ns/s is needed), so the timeout fires about 990 ms
before the deadline, while sub-second deadlines (no borrow) behave
correctly. -/
theorem C3_early_timeout :
    macos_pthread_mutex_timedlock (fun _ => false) ⟨1, 0⟩ 9 = some ⟨ETIMEDOUT, 1, 10000000⟩ ∧
    macos_pthread_mutex_timedlock (fun _ => false) ⟨0, 25000000⟩ 9
      = some ⟨ETIMEDOUT, 3, 25000000⟩ ∧
    (⟨1, 0⟩ : Timespec).totalNs = 1000000000 := by
  exact ⟨by decide, by decide, by decide⟩

end MacosPthread
